import Mathlib

/-!
Verification of the Spaced-Repetition Scheduling Engine

Shallow embedding of `src/services/LearningEngine.ts` from the
`learn-spanish-quickly` repository, together with proofs of the testable
properties of its specification.

Modelling conventions:
* JavaScript `number` fields of `WordStats` are modelled as `Int`
  (TypeScript numbers are signed; the guards `level > 0` / `level < 5`
  in the source are only meaningful over a signed type).
* Calendar dates (ISO `YYYY-MM-DD` strings produced by
  `toISOString().split('T')[0]`) are modelled as day numbers
  (`Nat`, days since epoch, UTC).  The current instant `new Date()` is
  modelled as `nowMs : Nat`, milliseconds since epoch; the current
  calendar day is `nowMs / msPerDay`.  `new Date(s)` for a stored
  date-only string `s` is the midnight timestamp `day * msPerDay`.
* The persisted key-value map `Record<string, WordStats>` is modelled as
  an association list with unique keys in insertion order.
* `Math.random`-driven shuffles (`shuffleArray`, a Fisher–Yates
  permutation) are modelled by an explicit shuffle parameter
  `σ : List Word → List Word`; properties that depend on the shuffle
  assume only that `σ` returns a permutation of its input, which
  Fisher–Yates always does.
* `idb-keyval`'s asynchronous `get`/`set` are modelled by an explicit
  read outcome (`Except String …`) and a write function returning
  `Except String Unit`; `Except.error` models a rejected promise.
-/

namespace LearningEngine

/-- Milliseconds per calendar day (UTC, no leap seconds), as used by
JavaScript `Date` arithmetic. -/
def msPerDay : Nat := 86400000

/-- Embeds `getTodayString()` — the current calendar day of the instant `nowMs`. -/
def todayOf (nowMs : Nat) : Nat := nowMs / msPerDay

/-- Embeds `export type LearningResult = 'correct' | 'wrong' | 'skipped'`. -/
inductive LearningResult where
  | correct
  | wrong
  | skipped
deriving DecidableEq, Repr

/-- Embeds `interface Word` (the `pronunciation?`/`example?` optional fields;
`example` is a Lean keyword, hence the field name `exampleText`). -/
structure Word where
  id : String
  spanish : String
  english : String
  category : String
  pronunciation : Option String := none
  exampleText : Option String := none
deriving DecidableEq, Repr

/-- Embeds `interface WordStats`.  Dates are day numbers (see module header). -/
structure WordStats where
  wordId : String
  seen : Int
  correct : Int
  wrong : Int
  streak : Int
  level : Int
  lastSeen : Option Nat
  nextDue : Option Nat
  hardFlag : Bool
  lastWrongDate : Option Nat
deriving DecidableEq, Repr

/-- The fresh record created by `updateStatsOnResult` /
`toggleHardFlag` when `allStats[wordId]` is absent (with
`hardFlag: false`; `toggleHardFlag` overrides it to `true`). -/
def freshStats (wordId : String) : WordStats :=
  { wordId := wordId, seen := 0, correct := 0, wrong := 0, streak := 0,
    level := 0, lastSeen := none, nextDue := none, hardFlag := false,
    lastWrongDate := none }

/-- Embeds `SRS_INTERVALS[Math.min(level, 5)] || 0`: the fixed interval table
`{0:0, 1:1, 2:3, 3:7, 4:14, 5:30}`; a key outside the table (negative
level after `Math.min`) yields `undefined`, which `|| 0` turns into 0. -/
def srsLookup : Int → Nat
  | 0 => 0
  | 1 => 1
  | 2 => 3
  | 3 => 7
  | 4 => 14
  | 5 => 30
  | _ => 0

/-- Embeds `computeNextDue(level)`: `addDays(new Date(), days)` followed by
`toISOString().split('T')[0]` — adding a whole number of days to the
current instant and taking its calendar day equals `today + days`. -/
def computeNextDue (level : Int) (today : Nat) : Nat :=
  today + srsLookup (min level 5)

/-- Embeds `isDue(nextDue)`: a null `nextDue` is always due; otherwise the
stored day is compared with today at calendar-day granularity. -/
def isDue (nextDue : Option Nat) (today : Nat) : Bool :=
  match nextDue with
  | none => true
  | some d => decide (d ≤ today)

/-- Embeds `wasWrongRecently(lastWrongDate, days = 7)`:
`new Date(lastWrongDate) >= addDays(new Date(), -days)`.  The stored
date-only string parses to the midnight timestamp `d * msPerDay`; the
cutoff is the current instant minus `days` whole days (a full
timestamp, not a midnight). -/
def wasWrongRecently (lastWrongDate : Option Nat) (nowMs : Nat) (days : Nat) : Bool :=
  match lastWrongDate with
  | none => false
  | some d => decide ((d * msPerDay : Int) ≥ (nowMs : Int) - days * msPerDay)

/-- The result-application core of `updateStatsOnResult`
(lines 220–243 of `LearningEngine.ts`): the counter updates, the
level-up / level-down rules and the unconditional due-date
recomputation, acting on an existing record. -/
def applyResult (result : LearningResult) (today : Nat) (stats0 : WordStats) : WordStats :=
  let s1 := { stats0 with seen := stats0.seen + 1, lastSeen := some today }
  let s2 :=
    match result with
    | .correct =>
        let s := { s1 with correct := s1.correct + 1, streak := s1.streak + 1 }
        if s.streak ≥ 2 ∧ s.level < 5 then { s with level := s.level + 1 } else s
    | .wrong =>
        let s := { s1 with wrong := s1.wrong + 1, streak := 0,
                           lastWrongDate := some today }
        if s.level > 0 then { s with level := s.level - 1 } else s
    | .skipped => s1
  { s2 with nextDue := some (computeNextDue s2.level today) }

/-- The storage-free core of `updateStatsOnResult`: get-or-create the
record (`allStats[wordId] || {…fresh…}`) and apply the result. -/
def updateStats (wordId : String) (result : LearningResult) (today : Nat)
    (prev : Option WordStats) : WordStats :=
  applyResult result today (prev.getD (freshStats wordId))

/-- The persisted statistics map `Record<string, WordStats>`: an
association list keyed by word id, unique keys, insertion order. -/
abbrev StatsMap := List (String × WordStats)

/-- Embeds `allStats[wordId] = stats`: JavaScript object assignment — replace
the value at an existing key in place, or append a new key. -/
def setKey : StatsMap → String → WordStats → StatsMap
  | [], k, v => [(k, v)]
  | (k', v') :: rest, k, v =>
      if k' = k then (k, v) :: rest else (k', v') :: setKey rest k v

/-- Embeds `allStats[word.id]` followed by the `|| {…fresh…}` fallback; in the
classification code this is only consulted for words whose record is
present. -/
def statsOf (allStats : StatsMap) (w : Word) : WordStats :=
  (allStats.lookup w.id).getD (freshStats w.id)

/-- Embeds `!stats || stats.seen === 0` — the "never seen = new word" test in
`buildDailyQueue` and `getProgressSummary`. -/
def isNewWord (allStats : StatsMap) (w : Word) : Bool :=
  match allStats.lookup w.id with
  | none => true
  | some s => decide (s.seen = 0)

/-!
The classification loop of `buildDailyQueue` (lines 313–337) pushes
each word, in corpus order, into `newWords` or `seenWords`, and pushes
seen words additionally into `dueWords` / `recentlyWrong` / `hardWords`
whenever the respective predicate holds (three independent `if`s, not
`else if`s).  A single pass of pushes over `words` produces exactly the
order-preserving filters below.
-/

/-- The `newWords` bucket of the classification loop. -/
def newBucket (allStats : StatsMap) (words : List Word) : List Word :=
  words.filter (fun w => isNewWord allStats w)

/-- The `seenWords` list of the classification loop. -/
def seenBucket (allStats : StatsMap) (words : List Word) : List Word :=
  words.filter (fun w => !isNewWord allStats w)

/-- The `dueWords` bucket of the classification loop. -/
def dueBucket (allStats : StatsMap) (words : List Word) (nowMs : Nat) : List Word :=
  (seenBucket allStats words).filter
    (fun w => isDue (statsOf allStats w).nextDue (todayOf nowMs))

/-- The `recentlyWrong` bucket of the classification loop. -/
def wrongBucket (allStats : StatsMap) (words : List Word) (nowMs : Nat) : List Word :=
  (seenBucket allStats words).filter
    (fun w => wasWrongRecently (statsOf allStats w).lastWrongDate nowMs 7)

/-- The `hardWords` bucket of the classification loop. -/
def hardBucket (allStats : StatsMap) (words : List Word) : List Word :=
  (seenBucket allStats words).filter (fun w => (statsOf allStats w).hardFlag)

/-- Embeds `priorityCount = dueWords.length + recentlyWrong.length + hardWords.length`
(line 340). -/
def priorityCount (allStats : StatsMap) (words : List Word) (nowMs : Nat) : Nat :=
  (dueBucket allStats words nowMs).length + (wrongBucket allStats words nowMs).length
    + (hardBucket allStats words).length

/-- Embeds `interface DailyQueue`. -/
structure DailyQueue where
  dueWords : List Word
  recentlyWrong : List Word
  hardWords : List Word
  newWords : List Word
  mixedReview : List Word
  total : Nat
  estimatedMinutes : Nat
deriving DecidableEq, Repr

/-- Embeds `buildDailyQueue(words, dailyGoal)` (storage-free body), with the
shuffle modelled by the parameter `σ` (see module header).
`Math.max(0, dailyGoal - priorityCount)` and `remainingForMix` are
computed over `Int` since TypeScript subtraction can go negative;
`.slice(0, n)` is `List.take` (with a non-positive bound giving `[]`).
`Math.ceil(total * 0.5)` over naturals is `(total + 1) / 2`. -/
def buildDailyQueue (σ : List Word → List Word) (allStats : StatsMap)
    (words : List Word) (dailyGoal : Nat) (nowMs : Nat) : DailyQueue :=
  let newWords := newBucket allStats words
  let seenWords := seenBucket allStats words
  let dueWords := dueBucket allStats words nowMs
  let recentlyWrong := wrongBucket allStats words nowMs
  let hardWords := hardBucket allStats words
  let pc := priorityCount allStats words nowMs
  let newWordsToAdd : Int := max 0 ((dailyGoal : Int) - pc)
  let selectedNewWords := (σ newWords).take newWordsToAdd.toNat
  let remainingForMix : Int := (dailyGoal : Int) - pc - selectedNewWords.length
  let mixedReview := (σ (seenWords.filter (fun w =>
      !decide (w ∈ dueWords) && !decide (w ∈ recentlyWrong)
        && !decide (w ∈ hardWords)))).take (max 0 remainingForMix).toNat
  let total := dueWords.length + recentlyWrong.length + hardWords.length
      + selectedNewWords.length + mixedReview.length
  { dueWords := σ dueWords, recentlyWrong := σ recentlyWrong,
    hardWords := σ hardWords, newWords := selectedNewWords,
    mixedReview := mixedReview, total := total,
    estimatedMinutes := (total + 1) / 2 }

/-- Embeds `Object.keys` insertion order: first occurrence of each key, left to
right (`seen` accumulates the keys already emitted). -/
def uniqueKeys (seen : List String) : List String → List String
  | [] => []
  | c :: cs =>
      if c ∈ seen then uniqueKeys seen cs
      else c :: uniqueKeys (c :: seen) cs

/-- The grouping loop of `interleaveByCategory` (lines 391–398): the
final `byCategory` object holds, for each distinct category in first-
appearance order, the sublist of words of that category in input
order. -/
def groupByCategory (words : List Word) : List (List Word) :=
  (uniqueKeys [] (words.map Word.category)).map
    (fun c => words.filter (fun w => w.category = c))

/-- Largest group size — the number of passes the `while` loop of
`interleaveByCategory` performs before every bucket is exhausted. -/
def maxGroupLen (groups : List (List Word)) : Nat :=
  (groups.map List.length).foldr max 0

theorem length_le_maxGroupLen {g : List Word} :
    ∀ {groups : List (List Word)}, g ∈ groups → g.length ≤ maxGroupLen groups
  | a :: as, hg => by
      rcases List.mem_cons.mp hg with h1 | h1
      · subst h1
        exact le_max_left _ _
      · exact le_trans (length_le_maxGroupLen h1) (le_max_right _ _)

/-- The `while (result.length < words.length)` loop of
`interleaveByCategory`: pass `i` pushes `byCategory[cat][i]` for every
category with more than `i` elements.  The guard `result.length <
words.length` ("not everything emitted yet") is equivalent to "some
bucket still has an element at position ≥ i", i.e. the negation of
`∀ g ∈ groups, g.length ≤ i`; the loop therefore performs exactly
`maxGroupLen groups` passes, which is the structural fuel of this
recursion (the guard is retained, so any fuel ≥ `maxGroupLen groups`
yields the same output). -/
def roundRobinFrom (groups : List (List Word)) : Nat → Nat → List Word
  | _, 0 => []
  | i, fuel + 1 =>
      if ∀ g ∈ groups, g.length ≤ i then []
      else (groups.filterMap (fun g => g[i]?))
        ++ roundRobinFrom groups (i + 1) fuel

/-- Embeds `interleaveByCategory(words)` (lines 390–414). -/
def interleaveByCategory (words : List Word) : List Word :=
  roundRobinFrom (groupByCategory words) 0 (maxGroupLen (groupByCategory words))

/-- Embeds `getDailySessionQueue(words, dailyGoal)` (storage-free body): the
priority-concatenated, deduplicated flat queue, interleaved by
category. -/
def getDailySessionQueue (σ : List Word → List Word) (allStats : StatsMap)
    (words : List Word) (dailyGoal : Nat) (nowMs : Nat) : List Word :=
  let queue := buildDailyQueue σ allStats words dailyGoal nowMs
  let prioritized :=
    queue.dueWords
      ++ queue.recentlyWrong.filter (fun w => !decide (w ∈ queue.dueWords))
      ++ queue.hardWords.filter (fun w =>
            !decide (w ∈ queue.dueWords) && !decide (w ∈ queue.recentlyWrong))
      ++ queue.newWords
      ++ queue.mixedReview
  interleaveByCategory prioritized

/-!
Storage layer

`idb-keyval`'s `get`/`set` are asynchronous and can reject.  A read is
modelled by its outcome `readRes : Except String StatsMap`
(`Except.error` = the promise rejected; an absent key is `Except.ok []`,
matching `stats || {}`), a write by a function
`write : StatsMap → Except String Unit`.
-/

/-- Embeds `getWordStats()`: `try { return (await get(…)) || {} } catch { return {} }`
— a failed read is swallowed and replaced by the empty map. -/
def getWordStats (readRes : Except String StatsMap) : Except String StatsMap :=
  match readRes with
  | .ok stats => .ok stats
  | .error _ => .ok []

/-- Embeds `saveWordStats(stats)`: `await set(…)` with no catch — a failed
write propagates. -/
def saveWordStats (write : StatsMap → Except String Unit) (stats : StatsMap) :
    Except String Unit :=
  write stats

/-- Embeds `getStreak()`: `try { return (await get(…)) || 0 } catch { return 0 }`. -/
def getStreak (streakRes : Except String Nat) : Except String Nat :=
  match streakRes with
  | .ok n => .ok n
  | .error _ => .ok 0

/-- Embeds `updateStatsOnResult(wordId, result)` (lines 199–250), with the
store's read outcome and write function made explicit. -/
def updateStatsOnResult (readRes : Except String StatsMap)
    (write : StatsMap → Except String Unit) (wordId : String)
    (result : LearningResult) (nowMs : Nat) : Except String WordStats := do
  let allStats ← getWordStats readRes
  let today := todayOf nowMs
  let stats := updateStats wordId result today (allStats.lookup wordId)
  let allStats2 := setKey allStats wordId stats
  let _ ← saveWordStats write allStats2
  pure stats

/-- Embeds `toggleHardFlag(wordId)` (lines 255–277). -/
def toggleHardFlag (readRes : Except String StatsMap)
    (write : StatsMap → Except String Unit) (wordId : String) :
    Except String Bool := do
  let allStats ← getWordStats readRes
  let newRecord :=
    match allStats.lookup wordId with
    | none => { freshStats wordId with hardFlag := true }
    | some s => { s with hardFlag := !s.hardFlag }
  let allStats2 := setKey allStats wordId newRecord
  let _ ← saveWordStats write allStats2
  pure newRecord.hardFlag

/-- Embeds `buildDailyQueue` including its initial store read. -/
def buildDailyQueueE (readRes : Except String StatsMap)
    (σ : List Word → List Word) (words : List Word) (dailyGoal : Nat)
    (nowMs : Nat) : Except String DailyQueue := do
  let allStats ← getWordStats readRes
  pure (buildDailyQueue σ allStats words dailyGoal nowMs)

/-!
Progress summary (`getProgressSummary`, lines 466–528)

`byLevel : Record<number, number>` and
`byCategory : Record<string, {total, learned}>` are association lists;
`byLevel[k] = (byLevel[k] || 0) + 1` increments an existing key or
appends a missing one.  `Math.round((totalCorrect / totalSeen) * 100)`
is modelled exactly over the rationals: `round(x) = floor(x + 1/2)`,
i.e. `(200 * c + s).ediv (2 * s)`; binary floating-point rounding error
is ignored.
-/

/-- Embeds `byLevel[k] = (byLevel[k] || 0) + 1`. -/
def bumpLevel : List (Int × Nat) → Int → List (Int × Nat)
  | [], k => [(k, 1)]
  | (k', n) :: rest, k =>
      if k' = k then (k', n + 1) :: rest else (k', n) :: bumpLevel rest k

/-- Embeds `byCategory[c] = byCategory[c] || {total: 0, learned: 0}` followed by
a pointwise update `f` of the `(total, learned)` pair. -/
def bumpCategory : List (String × Nat × Nat) → String → (Nat × Nat → Nat × Nat) →
    List (String × Nat × Nat)
  | [], c, f => [(c, f (0, 0))]
  | (c', p) :: rest, c, f =>
      if c' = c then (c', f p) :: rest else (c', p) :: bumpCategory rest c f

/-- Embeds `interface ProgressSummary`. -/
structure ProgressSummary where
  totalWords : Nat
  wordsLearned : Nat
  wordsMastered : Nat
  wordsInProgress : Nat
  wordsNew : Nat
  dueToday : Nat
  streak : Nat
  accuracy : Int
  byLevel : List (Int × Nat)
  byCategory : List (String × Nat × Nat)
deriving DecidableEq, Repr

/-- The mutable accumulator of `getProgressSummary`'s `for` loop. -/
structure SummaryAcc where
  wordsLearned : Nat := 0
  wordsMastered : Nat := 0
  wordsInProgress : Nat := 0
  wordsNew : Nat := 0
  dueToday : Nat := 0
  totalCorrect : Int := 0
  totalSeen : Int := 0
  byLevel : List (Int × Nat) := [(0, 0), (1, 0), (2, 0), (3, 0), (4, 0), (5, 0)]
  byCategory : List (String × Nat × Nat) := []
deriving DecidableEq, Repr

/-- One iteration of `getProgressSummary`'s loop (lines 481–514). -/
def summaryStep (allStats : StatsMap) (today : Nat) (acc : SummaryAcc)
    (w : Word) : SummaryAcc :=
  let acc := { acc with
    byCategory := bumpCategory acc.byCategory w.category
      (fun p => (p.1 + 1, p.2)) }
  if isNewWord allStats w then
    { acc with wordsNew := acc.wordsNew + 1, byLevel := bumpLevel acc.byLevel 0 }
  else
    let s := statsOf allStats w
    let acc := { acc with
      totalCorrect := acc.totalCorrect + s.correct,
      totalSeen := acc.totalSeen + s.seen,
      byLevel := bumpLevel acc.byLevel s.level }
    let acc :=
      if 4 ≤ s.level then
        { acc with wordsMastered := acc.wordsMastered + 1,
                   byCategory := bumpCategory acc.byCategory w.category
                     (fun p => (p.1, p.2 + 1)) }
      else if 1 ≤ s.level then
        { acc with wordsLearned := acc.wordsLearned + 1,
                   byCategory := bumpCategory acc.byCategory w.category
                     (fun p => (p.1, p.2 + 1)) }
      else acc
    let acc :=
      if s.level < 4 then { acc with wordsInProgress := acc.wordsInProgress + 1 }
      else acc
    if isDue s.nextDue today then { acc with dueToday := acc.dueToday + 1 }
    else acc

/-- Storage-free body of `getProgressSummary`. -/
def getProgressSummary (allStats : StatsMap) (streak : Nat)
    (words : List Word) (nowMs : Nat) : ProgressSummary :=
  let acc := words.foldl (summaryStep allStats (todayOf nowMs)) {}
  { totalWords := words.length,
    wordsLearned := acc.wordsLearned,
    wordsMastered := acc.wordsMastered,
    wordsInProgress := acc.wordsInProgress,
    wordsNew := acc.wordsNew,
    dueToday := acc.dueToday,
    streak := streak,
    accuracy :=
      if 0 < acc.totalSeen then
        (200 * acc.totalCorrect + acc.totalSeen).ediv (2 * acc.totalSeen)
      else 0,
    byLevel := acc.byLevel,
    byCategory := acc.byCategory }

/-- Embeds `getProgressSummary(words)` including its store reads (statistics
map and streak). -/
def getProgressSummaryE (readRes : Except String StatsMap)
    (streakRes : Except String Nat) (words : List Word) (nowMs : Nat) :
    Except String ProgressSummary := do
  let allStats ← getWordStats readRes
  let streak ← getStreak streakRes
  pure (getProgressSummary allStats streak words nowMs)

/-!
Helper lemmas and trace semantics for the result processor.
-/

/-- The sequence of statistics records produced by applying a list of
`(outcome, today)` steps through `updateStatsOnResult`, starting from
an absent record (`none`) or a stored one; each application reads the
record produced by the previous step, exactly as consecutive
read-modify-write calls do. -/
def runStats (wordId : String) :
    Option WordStats → List (LearningResult × Nat) → List WordStats
  | _, [] => []
  | start, (res, today) :: rest =>
      let s := updateStats wordId res today start
      s :: runStats wordId (some s) rest

/-!
Concrete example data used by witnesses and counterexamples.
-/

/-- A record as stored after a single Wrong answer on day 0 (reachable
from the absent record by one `updateStatsOnResult` call). -/
def exRecordWrong0 : WordStats :=
  { wordId := "hola", seen := 1, correct := 0, wrong := 1, streak := 0,
    level := 0, lastSeen := some 0, nextDue := some 0, hardFlag := false,
    lastWrongDate := some 0 }

/-- A record as stored after a single Correct answer on day 0: streak 1,
level 0 (reachable from the absent record by one call). -/
def exRecordStreak1 : WordStats :=
  { wordId := "hola", seen := 1, correct := 1, wrong := 0, streak := 1,
    level := 0, lastSeen := some 0, nextDue := some 0, hardFlag := false,
    lastWrongDate := none }

/-- A record at mastery level 2. -/
def exRecordLevel2 : WordStats :=
  { wordId := "hola", seen := 4, correct := 3, wrong := 1, streak := 3,
    level := 2, lastSeen := some 50, nextDue := some 53, hardFlag := false,
    lastWrongDate := some 40 }

/-- Noon (UTC) of day 100 — an evaluation instant strictly after
midnight. -/
def exNoon100 : Nat := 100 * msPerDay + msPerDay / 2

/-- A small corpus maker. -/
def mkWord (n : String) (c : String) : Word :=
  { id := n, spanish := n, english := n, category := c }

/-- A word that is simultaneously due, recently wrong and hard-flagged
on day 100. -/
def exWordTrio : Word := mkWord "uno" "numbers"

/-- Statistics making `exWordTrio` due (nextDue = day 100), recently
wrong (wrong on day 99) and hard-flagged at once. -/
def exStatsTrio : StatsMap :=
  [("uno",
    { wordId := "uno", seen := 5, correct := 2, wrong := 3, streak := 0,
      level := 1, lastSeen := some 99, nextDue := some 100, hardFlag := true,
      lastWrongDate := some 99 })]

/-- Ten distinct corpus words, all of one category. -/
def exWords10 : List Word :=
  ["w1", "w2", "w3", "w4", "w5", "w6", "w7", "w8", "w9", "w10"].map
    (fun n => mkWord n "misc")

/-- A seen record that is due on day 100 (and neither recently wrong nor
hard). -/
def exDueRecord (n : String) : WordStats :=
  { wordId := n, seen := 1, correct := 1, wrong := 0, streak := 1,
    level := 0, lastSeen := some 99, nextDue := some 100, hardFlag := false,
    lastWrongDate := none }

/-- Statistics under which all ten of `exWords10` are due on day 100. -/
def exStats10 : StatsMap :=
  ["w1", "w2", "w3", "w4", "w5", "w6", "w7", "w8", "w9", "w10"].map
    (fun n => (n, exDueRecord n))

/-- The mastery level produced by `applyResult`, in closed form. -/
theorem applyResult_level (result : LearningResult) (today : Nat)
    (s0 : WordStats) :
    (applyResult result today s0).level =
      match result with
      | .correct =>
          if s0.streak + 1 ≥ 2 ∧ s0.level < 5 then s0.level + 1 else s0.level
      | .wrong => if s0.level > 0 then s0.level - 1 else s0.level
      | .skipped => s0.level := by
  cases result <;> simp only [applyResult] <;> split <;> rfl

/-- One `updateStatsOnResult` step keeps the mastery level within
`[0, 5]` when the input record is absent or has a level in `[0, 5]`. -/
theorem updateStats_level_bounds (wordId : String) (result : LearningResult)
    (today : Nat) (prev : Option WordStats)
    (h : ∀ s0 ∈ prev, 0 ≤ s0.level ∧ s0.level ≤ 5) :
    0 ≤ (updateStats wordId result today prev).level ∧
      (updateStats wordId result today prev).level ≤ 5 := by
  cases prev with
  | none =>
      rw [updateStats, Option.getD_none, applyResult_level]
      cases result <;> simp [freshStats]
  | some s0 =>
      have hs := h s0 rfl
      rw [updateStats, Option.getD_some, applyResult_level]
      cases result <;> dsimp only
      · split <;> omega
      · split <;> omega
      · omega

/-- The consecutive-correct streak produced by `applyResult`, in closed
form. -/
theorem applyResult_streak (result : LearningResult) (today : Nat)
    (s0 : WordStats) :
    (applyResult result today s0).streak =
      match result with
      | .correct => s0.streak + 1
      | .wrong => 0
      | .skipped => s0.streak := by
  cases result <;> simp only [applyResult] <;> split <;> rfl

/-- C1: for every sequence of outcomes (Correct, Wrong, Skipped) applied
via `updateStatsOnResult`, starting from an absent record or any valid
record (level within `[0, 5]`), the mastery level of every record the
sequence produces stays within `[0, 5]`: it never decrements below 0
nor exceeds 5. -/
theorem c1_level_bounds (wordId : String) (start : Option WordStats)
    (steps : List (LearningResult × Nat))
    (hstart : ∀ s0 ∈ start, 0 ≤ s0.level ∧ s0.level ≤ 5) :
    ∀ s ∈ runStats wordId start steps, 0 ≤ s.level ∧ s.level ≤ 5 := by
  induction steps generalizing start with
  | nil =>
      intro s hs
      simp only [runStats] at hs
      cases hs
  | cons step rest ih =>
      obtain ⟨res, today⟩ := step
      intro s hs
      rw [runStats] at hs
      rcases List.mem_cons.mp hs with h1 | h1
      · subst h1
        exact updateStats_level_bounds _ _ _ _ hstart
      · exact ih (some (updateStats wordId res today start))
          (by simpa using updateStats_level_bounds wordId res today start hstart)
          s h1

/-- C1 witness: the level-bounds invariant evaluated on a concrete
five-step outcome sequence starting from the absent record. -/
theorem c1_level_bounds_witness :
    (∀ s0 ∈ (none : Option WordStats), 0 ≤ s0.level ∧ s0.level ≤ 5) ∧
    (∀ s ∈ runStats "hola" none
        [(LearningResult.correct, 0), (LearningResult.correct, 0),
         (LearningResult.correct, 1), (LearningResult.wrong, 2),
         (LearningResult.skipped, 3)],
      0 ≤ s.level ∧ s.level ≤ 5) :=
  ⟨by simp, c1_level_bounds "hola" none _ (by simp)⟩

/-- C2 counterexample: a Skipped outcome does change `nextDueDate` —
skipping `exRecordWrong0` (whose next due date is day 0) on day 1
recomputes its next due date to day 1, refuting the claim that a skip
leaves the due date unchanged. -/
theorem c2_counterexample :
    (updateStats "hola" LearningResult.skipped 1 (some exRecordWrong0)).nextDue
      ≠ exRecordWrong0.nextDue := by decide

/-- C2 (amended): a Skipped outcome leaves `masteryLevel`,
`consecutiveCorrectStreak` and every other counter and flag unchanged,
increments `timesSeen` by 1 and sets `lastSeenDate` to today — but it
does not leave `nextDueDate` unchanged: the due date is unconditionally
recomputed as `computeNextDue(level)` relative to today. -/
theorem c2_skip_effect (wordId : String) (today : Nat) (r : WordStats) :
    updateStats wordId LearningResult.skipped today (some r) =
      { r with seen := r.seen + 1, lastSeen := some today,
               nextDue := some (computeNextDue r.level today) } := rfl

/-- C5 counterexample: a record at level 0 with streak 1 (as stored
after one Correct answer) levels up already on the FIRST subsequent
Correct outcome, refuting "level L+1 on the second Correct and never on
the first" as a statement about every record. -/
theorem c5_counterexample :
    exRecordStreak1.level = 0 ∧
    (updateStats "hola" LearningResult.correct 1 (some exRecordStreak1)).level
      = exRecordStreak1.level + 1 := by decide

/-- C5 (amended): for every record at level L < 5 whose consecutive
correct streak is 0, two consecutive Correct outcomes yield level L+1
on the second Correct and never on the first, and the streak (not reset
by the level-up) ends at 2. -/
theorem c5_two_corrects (wordId : String) (t1 t2 : Nat) (r : WordStats)
    (hstreak : r.streak = 0) (h5 : r.level < 5) :
    (updateStats wordId LearningResult.correct t1 (some r)).level = r.level ∧
    (updateStats wordId LearningResult.correct t2
        (some (updateStats wordId LearningResult.correct t1 (some r)))).level
      = r.level + 1 ∧
    (updateStats wordId LearningResult.correct t2
        (some (updateStats wordId LearningResult.correct t1 (some r)))).streak
      = 2 := by
  have hl1 : (updateStats wordId LearningResult.correct t1 (some r)).level
      = r.level := by
    rw [updateStats, Option.getD_some, applyResult_level]
    dsimp only
    split_ifs with h
    · omega
    · rfl
  have hs1 : (updateStats wordId LearningResult.correct t1 (some r)).streak
      = 1 := by
    rw [updateStats, Option.getD_some, applyResult_streak]
    dsimp only
    omega
  refine ⟨hl1, ?_, ?_⟩
  · rw [updateStats, Option.getD_some, applyResult_level]
    dsimp only
    rw [hs1, hl1]
    split_ifs with h
    · rfl
    · omega
  · rw [updateStats, Option.getD_some, applyResult_streak]
    dsimp only
    omega

/-- C5 witness: the amended two-Correct rule evaluated on the fresh
record for "hola" (streak 0, level 0). -/
theorem c5_two_corrects_witness :
    (freshStats "hola").streak = 0 ∧ (freshStats "hola").level < 5 ∧
    ((updateStats "hola" LearningResult.correct 0
        (some (freshStats "hola"))).level = (freshStats "hola").level ∧
     (updateStats "hola" LearningResult.correct 0
        (some (updateStats "hola" LearningResult.correct 0
          (some (freshStats "hola"))))).level = (freshStats "hola").level + 1 ∧
     (updateStats "hola" LearningResult.correct 0
        (some (updateStats "hola" LearningResult.correct 0
          (some (freshStats "hola"))))).streak = 2) :=
  ⟨by decide, by decide,
    c5_two_corrects "hola" 0 0 (freshStats "hola") (by decide) (by decide)⟩

/-- C6: a Wrong outcome decrements the level by one when it is positive
(a level-0 record stays at 0), resets the streak to 0, increments
`timesWrong`, sets `lastWrongDate` to today, recomputes the due date
from the new level, and otherwise only records the exposure
(`timesSeen`, `lastSeenDate`). -/
theorem c6_wrong_effect (wordId : String) (today : Nat) (r : WordStats) :
    (0 < r.level →
      (updateStats wordId LearningResult.wrong today (some r)).level
        = r.level - 1) ∧
    (r.level = 0 →
      (updateStats wordId LearningResult.wrong today (some r)).level = 0) ∧
    (updateStats wordId LearningResult.wrong today (some r)).streak = 0 ∧
    (updateStats wordId LearningResult.wrong today (some r)).wrong
      = r.wrong + 1 ∧
    (updateStats wordId LearningResult.wrong today (some r)).lastWrongDate
      = some today ∧
    (updateStats wordId LearningResult.wrong today (some r)).nextDue
      = some (computeNextDue
          (updateStats wordId LearningResult.wrong today (some r)).level
          today) ∧
    (updateStats wordId LearningResult.wrong today (some r)).seen
      = r.seen + 1 ∧
    (updateStats wordId LearningResult.wrong today (some r)).lastSeen
      = some today ∧
    (updateStats wordId LearningResult.wrong today (some r)).correct
      = r.correct ∧
    (updateStats wordId LearningResult.wrong today (some r)).hardFlag
      = r.hardFlag := by
  rw [updateStats, Option.getD_some]
  simp only [applyResult]
  split_ifs with h
  · exact ⟨fun _ => rfl, fun h0 => by omega, rfl, rfl, rfl, trivial, rfl, rfl,
      rfl, rfl⟩
  · exact ⟨fun hpos => by omega, fun h0 => h0, rfl, rfl, rfl, trivial, rfl,
      rfl, rfl, rfl⟩

/-- C6 witness: the Wrong-outcome rule evaluated on a record at
level 2 on day 100. -/
theorem c6_wrong_effect_witness :
    0 < exRecordLevel2.level ∧
    (updateStats "hola" LearningResult.wrong 100 (some exRecordLevel2)).level
      = exRecordLevel2.level - 1 ∧
    (updateStats "hola" LearningResult.wrong 100 (some exRecordLevel2)).streak
      = 0 ∧
    (updateStats "hola" LearningResult.wrong 100
        (some exRecordLevel2)).lastWrongDate = some 100 :=
  ⟨by decide,
    (c6_wrong_effect "hola" 100 exRecordLevel2).1 (by decide),
    (c6_wrong_effect "hola" 100 exRecordLevel2).2.2.1,
    (c6_wrong_effect "hola" 100 exRecordLevel2).2.2.2.2.1⟩

/-- C7 counterexample: evaluated at noon of day 100, an item whose last
wrong answer was on day 93 — exactly 7 calendar days before today — is
NOT classified recently-wrong, although the claim's boundary
(`lastWrongDate ≥ today - 7 days`) includes it: the code compares the
stored midnight timestamp against `now - 7·24h`, a cutoff that sits at
the current time of day, not at midnight. -/
theorem c7_counterexample :
    wasWrongRecently (some 93) exNoon100 7 = false ∧
    (todayOf exNoon100 : Int) - 7 ≤ 93 := by decide

/-- C7 (amended): a seen item is recently-wrong iff the midnight
timestamp of `lastWrongDate` is at least `now - 7·24h`; at calendar-day
granularity this means `lastWrongDate ≥ today - 7` when the engine runs
exactly at midnight UTC, and `lastWrongDate ≥ today - 6` (a 6-day
inclusive window; an item wrong exactly 7 days ago is excluded) at any
instant strictly after midnight. -/
theorem c7_window (d nowMs : Nat) :
    (nowMs % msPerDay = 0 →
      (wasWrongRecently (some d) nowMs 7 = true ↔
        (todayOf nowMs : Int) - 7 ≤ d)) ∧
    (nowMs % msPerDay ≠ 0 →
      (wasWrongRecently (some d) nowMs 7 = true ↔
        (todayOf nowMs : Int) - 6 ≤ d)) := by
  refine ⟨fun hr => ?_, fun hr => ?_⟩ <;>
  · simp only [msPerDay] at hr
    simp only [wasWrongRecently, todayOf, msPerDay, decide_eq_true_eq,
      ge_iff_le]
    omega

/-- C7 witness: the amended window rule evaluated one millisecond after
midnight of day 100 on an item wrong on day 94. -/
theorem c7_window_witness :
    (100 * msPerDay + 1) % msPerDay ≠ 0 ∧
    (wasWrongRecently (some 94) (100 * msPerDay + 1) 7 = true ↔
      (todayOf (100 * msPerDay + 1) : Int) - 6 ≤ 94) :=
  ⟨by decide, (c7_window 94 (100 * msPerDay + 1)).2 (by decide)⟩

/-- C8 counterexample: a failed read of the statistics map during
`updateStatsOnResult` is not propagated upward — the operation
completes and reports success, behaving as if the store were empty and
returning a freshly initialised, updated record. -/
theorem c8_counterexample :
    updateStatsOnResult (Except.error "read failure") (fun _ => Except.ok ())
        "hola" LearningResult.correct 0 =
      Except.ok (updateStats "hola" LearningResult.correct 0 none) := rfl

/-- C8 (amended): only WRITE failures propagate upward unmodified (from
`updateStatsOnResult` and `toggleHardFlag`, whose `saveWordStats` has
no catch); READ failures are swallowed inside `getWordStats` /
`getStreak`, which substitute the empty map / 0, so
`updateStatsOnResult`, `toggleHardFlag`, `buildDailyQueue` and
`getProgressSummary` all complete as if the store were empty. -/
theorem c8_error_propagation :
    (∀ (e : String) (write : StatsMap → Except String Unit) wordId result
        nowMs,
      updateStatsOnResult (Except.error e) write wordId result nowMs =
        updateStatsOnResult (Except.ok []) write wordId result nowMs) ∧
    (∀ (allStats : StatsMap) (e : String) wordId result nowMs,
      updateStatsOnResult (Except.ok allStats) (fun _ => Except.error e)
        wordId result nowMs = Except.error e) ∧
    (∀ (e : String) (write : StatsMap → Except String Unit) wordId,
      toggleHardFlag (Except.error e) write wordId =
        toggleHardFlag (Except.ok []) write wordId) ∧
    (∀ (allStats : StatsMap) (e : String) wordId,
      toggleHardFlag (Except.ok allStats) (fun _ => Except.error e) wordId =
        Except.error e) ∧
    (∀ (e : String) (σ : List Word → List Word) words dailyGoal nowMs,
      buildDailyQueueE (Except.error e) σ words dailyGoal nowMs =
        Except.ok (buildDailyQueue σ [] words dailyGoal nowMs)) ∧
    (∀ (e : String) (streakRes : Except String Nat) words nowMs,
      getProgressSummaryE (Except.error e) streakRes words nowMs =
        getProgressSummaryE (Except.ok []) streakRes words nowMs) ∧
    (∀ (readRes : Except String StatsMap) (e : String) words nowMs,
      getProgressSummaryE readRes (Except.error e) words nowMs =
        getProgressSummaryE readRes (Except.ok 0) words nowMs) := by
  refine ⟨fun _ _ _ _ _ => rfl, fun _ _ _ _ _ => rfl, fun _ _ _ => rfl,
    fun _ _ _ => rfl, fun _ _ _ _ _ => rfl, fun _ _ _ _ => rfl, ?_⟩
  intro readRes e words nowMs
  cases readRes <;> rfl

/-- The length of a filtered list is the sum of its indicator over the
list. -/
theorem length_filter_eq_sum_indicator (p : Word → Bool) :
    ∀ l : List Word,
      (l.filter p).length = (l.map (fun w => if p w then 1 else 0)).sum
  | [] => rfl
  | a :: as => by
      by_cases h : p a <;>
        (simp [List.filter_cons, h, length_filter_eq_sum_indicator p as];
          try omega)

/-- Sums of pointwise triple sums split. -/
theorem sum_map_add3 (f g h : Word → Nat) :
    ∀ l : List Word,
      (l.map (fun w => f w + g w + h w)).sum =
        (l.map f).sum + (l.map g).sum + (l.map h).sum
  | [] => rfl
  | a :: as => by
      simp only [List.map_cons, List.sum_cons, sum_map_add3 f g h as]
      omega

/-- Appending commutes under permutation in the middle. -/
theorem perm_append_swap (a b c : List Word) :
    List.Perm (a ++ (b ++ c)) (b ++ (a ++ c)) := by
  simpa only [List.append_assoc] using
    (@List.perm_append_comm Word a b).append_right c

/-- If every group has at most `i` elements, dropping `i` from each
group flattens to nothing. -/
theorem flatten_drop_eq_nil {groups : List (List Word)} {i : Nat}
    (h : ∀ g ∈ groups, g.length ≤ i) :
    (groups.map (List.drop i)).flatten = [] := by
  induction groups with
  | nil => rfl
  | cons g gs ih =>
      have hg : g.length ≤ i := h g (List.mem_cons_self g gs)
      simp only [List.map_cons, List.flatten_cons,
        List.drop_eq_nil_of_le hg, List.nil_append]
      exact ih (fun g' hg' => h g' (List.mem_cons_of_mem g hg'))

/-- Flattening the tails dropped at `i` is, up to permutation, the
column of elements at position `i` followed by the tails dropped at
`i + 1`: one round-robin pass peels one element off every long-enough
group. -/
theorem flatten_drop_perm_cols (i : Nat) :
    ∀ groups : List (List Word),
      List.Perm ((groups.map (List.drop i)).flatten)
        ((groups.filterMap (fun g => g[i]?))
          ++ (groups.map (List.drop (i + 1))).flatten)
  | [] => List.Perm.refl []
  | g :: gs => by
      simp only [List.map_cons, List.flatten_cons, List.filterMap_cons]
      cases hg : g[i]? with
      | none =>
          have hlen : g.length ≤ i := List.getElem?_eq_none_iff.mp hg
          rw [List.drop_eq_nil_of_le hlen,
            List.drop_eq_nil_of_le (Nat.le_succ_of_le hlen)]
          simpa using flatten_drop_perm_cols i gs
      | some a =>
          obtain ⟨hlt, hget⟩ := List.getElem?_eq_some_iff.mp hg
          rw [List.drop_eq_getElem_cons hlt, hget]
          simp only [List.cons_append]
          refine List.Perm.cons a ?_
          refine List.Perm.trans
            ((flatten_drop_perm_cols i gs).append_left (g.drop (i + 1))) ?_
          exact perm_append_swap (g.drop (i + 1))
            (gs.filterMap (fun g' => g'[i]?))
            ((gs.map (List.drop (i + 1))).flatten)

/-- The round-robin loop of `interleaveByCategory` emits, up to
permutation, everything at positions `≥ i` in the groups, provided the
fuel covers the longest remaining group. -/
theorem roundRobinFrom_perm :
    ∀ (fuel : Nat) (groups : List (List Word)) (i : Nat),
      (∀ g ∈ groups, g.length ≤ i + fuel) →
      List.Perm (roundRobinFrom groups i fuel)
        ((groups.map (List.drop i)).flatten)
  | 0, groups, i, h => by
      rw [roundRobinFrom, flatten_drop_eq_nil (by simpa using h)]
  | fuel + 1, groups, i, h => by
      rw [roundRobinFrom]
      split_ifs with hall
      · rw [flatten_drop_eq_nil hall]
      · refine List.Perm.trans ?_ (flatten_drop_perm_cols i groups).symm
        exact (roundRobinFrom_perm fuel groups (i + 1)
          (fun g hg => by have := h g hg; omega)).append_left _

/-- Membership in `uniqueKeys`: exactly the keys of the list that are
not among the already-seen ones. -/
theorem mem_uniqueKeys (x : String) :
    ∀ (l seen : List String), x ∈ uniqueKeys seen l ↔ x ∈ l ∧ x ∉ seen
  | [], seen => by simp [uniqueKeys]
  | c :: cs, seen => by
      rw [uniqueKeys]
      split_ifs with hc
      · rw [mem_uniqueKeys x cs seen]
        constructor
        · rintro ⟨h1, h2⟩
          exact ⟨List.mem_cons_of_mem c h1, h2⟩
        · rintro ⟨h1, h2⟩
          rcases List.mem_cons.mp h1 with rfl | h1
          · exact absurd hc h2
          · exact ⟨h1, h2⟩
      · rw [List.mem_cons, mem_uniqueKeys x cs (c :: seen)]
        constructor
        · rintro (rfl | ⟨h1, h2⟩)
          · exact ⟨List.mem_cons_self x cs, hc⟩
          · exact ⟨List.mem_cons_of_mem c h1,
              fun hx => h2 (List.mem_cons_of_mem c hx)⟩
        · rintro ⟨h1, h2⟩
          rcases List.mem_cons.mp h1 with rfl | h1
          · exact Or.inl rfl
          · by_cases hx : x = c
            · exact Or.inl hx
            · exact Or.inr ⟨h1, fun hm => by
                rcases List.mem_cons.mp hm with h | h
                · exact hx h
                · exact h2 h⟩

/-- The keys produced by `uniqueKeys` are pairwise distinct. -/
theorem nodup_uniqueKeys :
    ∀ (l seen : List String), (uniqueKeys seen l).Nodup
  | [], _ => List.nodup_nil
  | c :: cs, seen => by
      rw [uniqueKeys]
      split_ifs with hc
      · exact nodup_uniqueKeys cs seen
      · refine List.Nodup.cons ?_ (nodup_uniqueKeys cs (c :: seen))
        intro hmem
        exact ((mem_uniqueKeys c cs (c :: seen)).mp hmem).2
          (List.mem_cons_self c seen)

/-- Occurrences of a word in the filter of its category slice. -/
theorem count_filter_category (a : Word) (c : String) :
    ∀ ws : List Word,
      ((ws.filter (fun w => w.category = c)).count a)
        = if a.category = c then ws.count a else 0
  | [] => by simp
  | w :: ws => by
      by_cases hw : w.category = c
      · by_cases ha : a.category = c
        · simp [List.filter_cons, hw, ha, List.count_cons,
            count_filter_category a c ws]
        · have hwa : w ≠ a := fun h => ha (h ▸ hw)
          simp [List.filter_cons, hw, ha, hwa, List.count_cons,
            count_filter_category a c ws]
      · by_cases ha : a.category = c
        · have hwa : w ≠ a := fun h => hw (h.symm ▸ ha)
          simp [List.filter_cons, hw, ha, hwa, List.count_cons,
            count_filter_category a c ws]
        · simp [List.filter_cons, hw, ha, List.count_cons,
            count_filter_category a c ws]

/-- Summing an indicator of a single key over a duplicate-free key list
yields the value exactly when the key occurs. -/
theorem sum_map_ite_single (k : String) (n : Nat) :
    ∀ cats : List String, cats.Nodup →
      (cats.map (fun c => if k = c then n else 0)).sum
        = if k ∈ cats then n else 0
  | [], _ => by simp
  | c :: cs, hnd => by
      simp only [List.map_cons, List.sum_cons]
      by_cases hk : k = c
      · subst hk
        rw [if_pos rfl, if_pos (List.mem_cons_self k cs),
          sum_map_ite_single k n cs (List.nodup_cons.mp hnd).2,
          if_neg (List.nodup_cons.mp hnd).1]
        omega
      · rw [if_neg hk, sum_map_ite_single k n cs (List.nodup_cons.mp hnd).2]
        simp [List.mem_cons, hk]

/-- Flattening the category grouping preserves occurrence counts. -/
theorem count_groupByCategory (ws : List Word) (a : Word) :
    ((groupByCategory ws).flatten).count a = ws.count a := by
  rw [groupByCategory, List.count_flatten, List.map_map]
  rw [List.map_congr_left
    (fun c _ => by
      simp only [Function.comp_apply]
      exact count_filter_category a c ws)]
  rw [sum_map_ite_single a.category (ws.count a) _ (nodup_uniqueKeys _ _)]
  by_cases hmem : a.category ∈ uniqueKeys [] (ws.map Word.category)
  · rw [if_pos hmem]
  · rw [if_neg hmem]
    have hnot : a ∉ ws := fun ha =>
      hmem ((mem_uniqueKeys a.category (ws.map Word.category) []).mpr
        ⟨List.mem_map_of_mem Word.category ha, List.not_mem_nil a.category⟩)
    exact (List.count_eq_zero.mpr hnot).symm

/-- Flattening the category grouping is a permutation of the input. -/
theorem groupByCategory_flatten_perm (ws : List Word) :
    List.Perm (groupByCategory ws).flatten ws :=
  List.perm_iff_count.mpr (fun a => count_groupByCategory ws a)

/-- The category interleaver emits a permutation of its input. -/
theorem interleave_perm (ws : List Word) :
    List.Perm (interleaveByCategory ws) ws := by
  rw [interleaveByCategory]
  refine List.Perm.trans
    (roundRobinFrom_perm (maxGroupLen (groupByCategory ws))
      (groupByCategory ws) 0 ?_) ?_
  · intro g hg
    simpa using length_le_maxGroupLen hg
  · have hdrop : (groupByCategory ws).map (List.drop 0) = groupByCategory ws := by
      rw [List.map_congr_left (fun g _ => List.drop_zero g)]
      exact List.map_id' (groupByCategory ws)
    rw [hdrop]
    exact groupByCategory_flatten_perm ws

/-- C3 counterexample: for a corpus whose single word is simultaneously
due, recently wrong and hard-flagged, the priority count computed by
`buildDailyQueue` is 3, while the union of the three priority buckets
holds exactly one distinct item — the count is not de-duplicated by
item identity. -/
theorem c3_counterexample :
    priorityCount exStatsTrio [exWordTrio] exNoon100 = 3 ∧
    ((dueBucket exStatsTrio [exWordTrio] exNoon100
        ++ wrongBucket exStatsTrio [exWordTrio] exNoon100
        ++ hardBucket exStatsTrio [exWordTrio]).dedup).length = 1 := by
  decide

/-- C3 (amended): the priority count used by `buildDailyQueue` to
budget new words and mixed review counts WITH multiplicity: it equals
the sum, over the seen corpus words, of how many of the three priority
predicates (due, recently-wrong, hard-flagged) each word satisfies — a
word matching k > 1 of the predicates is counted k times, not once. -/
theorem c3_priorityCount_multiplicity (allStats : StatsMap)
    (words : List Word) (nowMs : Nat) :
    priorityCount allStats words nowMs =
      ((seenBucket allStats words).map (fun w =>
        (if isDue (statsOf allStats w).nextDue (todayOf nowMs) then 1 else 0)
        + (if wasWrongRecently (statsOf allStats w).lastWrongDate nowMs 7
            then 1 else 0)
        + (if (statsOf allStats w).hardFlag then 1 else 0))).sum := by
  rw [priorityCount, dueBucket, wrongBucket, hardBucket,
    length_filter_eq_sum_indicator, length_filter_eq_sum_indicator,
    length_filter_eq_sum_indicator, sum_map_add3]

/-- C10: the category interleaver emits a permutation of its input —
grouping by category preserves within-category relative order (in
first-appearance category order) and the round-robin passes emit the
item at position `i` of every category still holding at least `i + 1`
items, until every input item has been emitted exactly once. -/
theorem c10_interleave_is_perm (words : List Word) :
    List.Perm (interleaveByCategory words) words :=
  interleave_perm words

/-- Slicing to a non-positive budget selects nothing. -/
theorem take_toNat_nonpos (l : List Word) (x : Int) (hx : x ≤ 0) :
    l.take (max 0 x).toNat = [] := by
  rw [max_eq_left hx]
  rfl

/-- C9: whenever the daily goal is at most the priority count, the
queue built by `buildDailyQueue` selects zero new words and zero
mixed-review items, returns every due item (the due list is a
permutation of the whole due bucket — due items are never truncated to
fit the goal), and its total is the priority count, which may exceed
the nominal goal. -/
theorem c9_priority_only (σ : List Word → List Word) (allStats : StatsMap)
    (words : List Word) (dailyGoal nowMs : Nat)
    (hσ : ∀ l : List Word, List.Perm (σ l) l)
    (hgoal : dailyGoal ≤ priorityCount allStats words nowMs) :
    (buildDailyQueue σ allStats words dailyGoal nowMs).newWords = [] ∧
    (buildDailyQueue σ allStats words dailyGoal nowMs).mixedReview = [] ∧
    List.Perm (buildDailyQueue σ allStats words dailyGoal nowMs).dueWords
      (dueBucket allStats words nowMs) ∧
    (buildDailyQueue σ allStats words dailyGoal nowMs).total
      = priorityCount allStats words nowMs ∧
    dailyGoal ≤ (buildDailyQueue σ allStats words dailyGoal nowMs).total := by
  have hx : ((dailyGoal : Int)
      - (priorityCount allStats words nowMs : Int)) ≤ 0 := by omega
  have hnewsel :
      (buildDailyQueue σ allStats words dailyGoal nowMs).newWords = [] := by
    simp only [buildDailyQueue]
    exact take_toNat_nonpos _ _ hx
  have hmix :
      (buildDailyQueue σ allStats words dailyGoal nowMs).mixedReview = [] := by
    simp only [buildDailyQueue]
    exact take_toNat_nonpos _ _ (by omega)
  have hdue :
      List.Perm (buildDailyQueue σ allStats words dailyGoal nowMs).dueWords
        (dueBucket allStats words nowMs) := by
    simp only [buildDailyQueue]
    exact hσ _
  have htotal :
      (buildDailyQueue σ allStats words dailyGoal nowMs).total
        = priorityCount allStats words nowMs := by
    simp only [buildDailyQueue]
    rw [take_toNat_nonpos _ _ hx]
    simp only [List.length_nil, Nat.cast_zero]
    rw [take_toNat_nonpos _ _ (by omega)]
    rw [priorityCount]
    simp

  exact ⟨hnewsel, hmix, hdue, htotal, htotal ▸ hgoal⟩

/-- C9 witness: ten due items with a daily goal of 5 — all ten due
items are returned and no new or mixed items are selected. -/
theorem c9_priority_only_witness :
    5 ≤ priorityCount exStats10 exWords10 exNoon100 ∧
    (buildDailyQueue id exStats10 exWords10 5 exNoon100).newWords = [] ∧
    (buildDailyQueue id exStats10 exWords10 5 exNoon100).mixedReview = [] ∧
    List.Perm (buildDailyQueue id exStats10 exWords10 5 exNoon100).dueWords
      (dueBucket exStats10 exWords10 exNoon100) ∧
    (buildDailyQueue id exStats10 exWords10 5 exNoon100).total
      = priorityCount exStats10 exWords10 exNoon100 := by
  have h := c9_priority_only id exStats10 exWords10 5 exNoon100
    (fun l => List.Perm.refl l) (by decide)
  exact ⟨by decide, h.1, h.2.1, h.2.2.1, h.2.2.2.1⟩

/-- C4 counterexample: with statistics making the word "uno"
simultaneously due, recently wrong and hard-flagged, the `DailyQueue`
returned by `buildDailyQueue` presents it in THREE of its five lists,
not exactly one — the precedence de-duplication happens only later, in
`getDailySessionQueue`.  Bucket membership does not depend on the
shuffle, instantiated here as the identity permutation. -/
theorem c4_counterexample :
    exWordTrio ∈
      (buildDailyQueue id exStatsTrio [exWordTrio] 15 exNoon100).dueWords ∧
    exWordTrio ∈
      (buildDailyQueue id exStatsTrio [exWordTrio] 15 exNoon100).recentlyWrong ∧
    exWordTrio ∈
      (buildDailyQueue id exStatsTrio [exWordTrio] 15 exNoon100).hardWords := by
  decide

/-- The flat priority-concatenated session queue — shuffled due list,
then the shuffled recently-wrong and hard lists filtered by the
precedence due > recentlyWrong > hardFlagged, then the selected new and
mixed items — holds no duplicates, given duplicate-free pairwise
compatible source buckets. -/
theorem session_parts_nodup (σ : List Word → List Word)
    (hσ : ∀ l : List Word, List.Perm (σ l) l)
    (dB wB hB nB mixSrc : List Word) (k m : Nat)
    (hdB : dB.Nodup) (hwB : wB.Nodup) (hhB : hB.Nodup) (hnB : nB.Nodup)
    (hmixN : mixSrc.Nodup)
    (hmd : mixSrc.Disjoint dB) (hmw : mixSrc.Disjoint wB)
    (hmh : mixSrc.Disjoint hB)
    (hndj : nB.Disjoint dB) (hnw : nB.Disjoint wB) (hnh : nB.Disjoint hB)
    (hnm : nB.Disjoint mixSrc) :
    (σ dB ++ (σ wB).filter (fun w => !decide (w ∈ σ dB))
      ++ (σ hB).filter (fun w => !decide (w ∈ σ dB) && !decide (w ∈ σ wB))
      ++ (σ nB).take k ++ (σ mixSrc).take m).Nodup := by
  have ndA : (σ dB).Nodup := ((hσ dB).nodup_iff).mpr hdB
  have ndB : ((σ wB).filter (fun w => !decide (w ∈ σ dB))).Nodup :=
    (((hσ wB).nodup_iff).mpr hwB).filter _
  have ndC : ((σ hB).filter
      (fun w => !decide (w ∈ σ dB) && !decide (w ∈ σ wB))).Nodup :=
    (((hσ hB).nodup_iff).mpr hhB).filter _
  have ndD : ((σ nB).take k).Nodup :=
    (((hσ nB).nodup_iff).mpr hnB).sublist (List.take_sublist k (σ nB))
  have ndE : ((σ mixSrc).take m).Nodup :=
    (((hσ mixSrc).nodup_iff).mpr hmixN).sublist
      (List.take_sublist m (σ mixSrc))
  have hBmem : ∀ a : Word,
      a ∈ (σ wB).filter (fun w => !decide (w ∈ σ dB)) →
        a ∈ wB ∧ a ∉ σ dB := by
    intro a ha
    have h1 := List.mem_filter.mp ha
    refine ⟨((hσ wB).mem_iff).mp h1.1, ?_⟩
    simpa using h1.2
  have hCmem : ∀ a : Word,
      a ∈ (σ hB).filter
          (fun w => !decide (w ∈ σ dB) && !decide (w ∈ σ wB)) →
        a ∈ hB ∧ a ∉ σ dB ∧ a ∉ σ wB := by
    intro a ha
    have h1 := List.mem_filter.mp ha
    have h2 := h1.2
    simp only [Bool.and_eq_true, Bool.not_eq_true',
      decide_eq_false_iff_not] at h2
    exact ⟨((hσ hB).mem_iff).mp h1.1, h2.1, h2.2⟩
  have hDmem : ∀ a : Word, a ∈ (σ nB).take k → a ∈ nB :=
    fun a ha => ((hσ nB).mem_iff).mp (List.take_subset k (σ nB) ha)
  have hEmem : ∀ a : Word, a ∈ (σ mixSrc).take m → a ∈ mixSrc :=
    fun a ha => ((hσ mixSrc).mem_iff).mp (List.take_subset m (σ mixSrc) ha)
  have dAB : (σ dB).Disjoint
      ((σ wB).filter (fun w => !decide (w ∈ σ dB))) :=
    fun a ha hb => (hBmem a hb).2 ha
  have dAC : (σ dB).Disjoint ((σ hB).filter
      (fun w => !decide (w ∈ σ dB) && !decide (w ∈ σ wB))) :=
    fun a ha hc => (hCmem a hc).2.1 ha
  have dBC : ((σ wB).filter (fun w => !decide (w ∈ σ dB))).Disjoint
      ((σ hB).filter
        (fun w => !decide (w ∈ σ dB) && !decide (w ∈ σ wB))) :=
    fun a hb hc => (hCmem a hc).2.2 (List.mem_of_mem_filter hb)
  have dAD : (σ dB).Disjoint ((σ nB).take k) :=
    fun a ha hd => hndj (hDmem a hd) (((hσ dB).mem_iff).mp ha)
  have dBD : ((σ wB).filter (fun w => !decide (w ∈ σ dB))).Disjoint
      ((σ nB).take k) :=
    fun a hb hd => hnw (hDmem a hd) (hBmem a hb).1
  have dCD : ((σ hB).filter
      (fun w => !decide (w ∈ σ dB) && !decide (w ∈ σ wB))).Disjoint
      ((σ nB).take k) :=
    fun a hc hd => hnh (hDmem a hd) (hCmem a hc).1
  have dAE : (σ dB).Disjoint ((σ mixSrc).take m) :=
    fun a ha he => hmd (hEmem a he) (((hσ dB).mem_iff).mp ha)
  have dBE : ((σ wB).filter (fun w => !decide (w ∈ σ dB))).Disjoint
      ((σ mixSrc).take m) :=
    fun a hb he => hmw (hEmem a he) (hBmem a hb).1
  have dCE : ((σ hB).filter
      (fun w => !decide (w ∈ σ dB) && !decide (w ∈ σ wB))).Disjoint
      ((σ mixSrc).take m) :=
    fun a hc he => hmh (hEmem a he) (hCmem a hc).1
  have dDE : ((σ nB).take k).Disjoint ((σ mixSrc).take m) :=
    fun a hd he => hnm (hDmem a hd) (hEmem a he)
  exact ((((ndA.append ndB dAB).append ndC
      (List.disjoint_append_left.mpr ⟨dAC, dBC⟩)).append ndD
      (List.disjoint_append_left.mpr
        ⟨List.disjoint_append_left.mpr ⟨dAD, dBD⟩, dCD⟩)).append ndE
      (List.disjoint_append_left.mpr
        ⟨List.disjoint_append_left.mpr
          ⟨List.disjoint_append_left.mpr ⟨dAE, dBE⟩, dCE⟩, dDE⟩))

/-- Membership in the precedence-filtered concatenation of the five
queue lists is exactly membership in their union: the filters only
remove occurrences that an earlier list already provides, so nothing
selected is dropped. -/
theorem mem_prioritized (d r h n m : List Word) (w : Word) :
    (w ∈ d ++ r.filter (fun x => !decide (x ∈ d))
        ++ h.filter (fun x => !decide (x ∈ d) && !decide (x ∈ r))
        ++ n ++ m) ↔
      (w ∈ d ∨ w ∈ r ∨ w ∈ h ∨ w ∈ n ∨ w ∈ m) := by
  simp only [List.mem_append, List.mem_filter, Bool.and_eq_true,
    Bool.not_eq_true', decide_eq_false_iff_not]
  constructor
  · rintro ((((h1 | ⟨h1, _⟩) | ⟨h1, _⟩) | h1) | h1) <;> tauto
  · intro h1
    by_cases hd : w ∈ d
    · tauto
    · by_cases hr : w ∈ r
      · tauto
      · tauto

/-- C4 (amended): the five lists of the `DailyQueue` produced by
`buildDailyQueue` are not pairwise disjoint — an item satisfying
several classification predicates appears in several of them.  The
exactly-once guarantee holds one stage later: for a duplicate-free
corpus and any permutation shuffle, the flat queue produced by
`getDailySessionQueue` — which de-duplicates with precedence
due > recentlyWrong > hardFlagged > new > mixedReview before
interleaving — lists every selected item exactly once: it holds no
duplicates, and an item belongs to it if and only if it belongs to one
of the five lists of the underlying `DailyQueue` (so nothing selected
is dropped by the precedence filters or the interleaver). -/
theorem c4_session_queue_each_once (σ : List Word → List Word)
    (allStats : StatsMap) (words : List Word) (dailyGoal nowMs : Nat)
    (hσ : ∀ l : List Word, List.Perm (σ l) l) (hnd : words.Nodup) :
    (getDailySessionQueue σ allStats words dailyGoal nowMs).Nodup ∧
    ∀ w : Word,
      w ∈ getDailySessionQueue σ allStats words dailyGoal nowMs ↔
        (w ∈ (buildDailyQueue σ allStats words dailyGoal nowMs).dueWords ∨
         w ∈ (buildDailyQueue σ allStats words dailyGoal nowMs).recentlyWrong ∨
         w ∈ (buildDailyQueue σ allStats words dailyGoal nowMs).hardWords ∨
         w ∈ (buildDailyQueue σ allStats words dailyGoal nowMs).newWords ∨
         w ∈ (buildDailyQueue σ allStats words dailyGoal nowMs).mixedReview) := by
  refine ⟨?_, ?_⟩
  case refine_2 =>
    intro w
    simp only [getDailySessionQueue]
    rw [(interleave_perm _).mem_iff]
    exact mem_prioritized _ _ _ _ _ w
  have hsB : (seenBucket allStats words).Nodup := hnd.filter _
  have hdB : (dueBucket allStats words nowMs).Nodup := hsB.filter _
  have hwB : (wrongBucket allStats words nowMs).Nodup := hsB.filter _
  have hhB : (hardBucket allStats words).Nodup := hsB.filter _
  have hnB : (newBucket allStats words).Nodup := hnd.filter _
  have hnewseen :
      (newBucket allStats words).Disjoint (seenBucket allStats words) := by
    intro a hn hs
    have h1 : isNewWord allStats a = true := (List.mem_filter.mp hn).2
    have h2 : (!isNewWord allStats a) = true := (List.mem_filter.mp hs).2
    rw [h1] at h2
    cases h2
  have hmixmem : ∀ a : Word,
      a ∈ (seenBucket allStats words).filter (fun w =>
        !decide (w ∈ dueBucket allStats words nowMs) &&
        !decide (w ∈ wrongBucket allStats words nowMs) &&
        !decide (w ∈ hardBucket allStats words)) →
      a ∈ seenBucket allStats words ∧
        a ∉ dueBucket allStats words nowMs ∧
        a ∉ wrongBucket allStats words nowMs ∧
        a ∉ hardBucket allStats words := by
    intro a ha
    have h1 := List.mem_filter.mp ha
    have h2 := h1.2
    simp only [Bool.and_eq_true, Bool.not_eq_true',
      decide_eq_false_iff_not] at h2
    exact ⟨h1.1, h2.1.1, h2.1.2, h2.2⟩
  rw [getDailySessionQueue]
  simp only [buildDailyQueue]
  refine ((interleave_perm _).nodup_iff).mpr ?_
  refine session_parts_nodup σ hσ _ _ _ _ _ _ _ hdB hwB hhB hnB
    (hsB.filter _) ?_ ?_ ?_ ?_ ?_ ?_ ?_
  · exact fun a hm hd => (hmixmem a hm).2.1 hd
  · exact fun a hm hw => (hmixmem a hm).2.2.1 hw
  · exact fun a hm hh => (hmixmem a hm).2.2.2 hh
  · exact fun a hn hd => hnewseen hn (List.mem_of_mem_filter hd)
  · exact fun a hn hw => hnewseen hn (List.mem_of_mem_filter hw)
  · exact fun a hn hh => hnewseen hn (List.mem_of_mem_filter hh)
  · exact fun a hn hm => hnewseen hn (List.mem_of_mem_filter hm)

/-- C4 witness: the amended exactly-once property evaluated on the
one-word corpus whose word is due, recently wrong and hard-flagged at
once — the flat session queue is duplicate-free and still presents
that word. -/
theorem c4_session_queue_each_once_witness :
    ([exWordTrio].Nodup) ∧
    (getDailySessionQueue id exStatsTrio [exWordTrio] 15 exNoon100).Nodup ∧
    (exWordTrio ∈ getDailySessionQueue id exStatsTrio [exWordTrio] 15
        exNoon100 ↔
      (exWordTrio ∈
          (buildDailyQueue id exStatsTrio [exWordTrio] 15 exNoon100).dueWords ∨
       exWordTrio ∈
          (buildDailyQueue id exStatsTrio [exWordTrio] 15
            exNoon100).recentlyWrong ∨
       exWordTrio ∈
          (buildDailyQueue id exStatsTrio [exWordTrio] 15 exNoon100).hardWords ∨
       exWordTrio ∈
          (buildDailyQueue id exStatsTrio [exWordTrio] 15 exNoon100).newWords ∨
       exWordTrio ∈
          (buildDailyQueue id exStatsTrio [exWordTrio] 15
            exNoon100).mixedReview)) :=
  ⟨by decide,
    (c4_session_queue_each_once id exStatsTrio [exWordTrio] 15 exNoon100
      (fun l => List.Perm.refl l) (by decide)).1,
    (c4_session_queue_each_once id exStatsTrio [exWordTrio] 15 exNoon100
      (fun l => List.Perm.refl l) (by decide)).2 exWordTrio⟩

end LearningEngine
